import Mathlib

/-!
Verification of the Snapshot Extraction & State Transition Engine of
`yurtici_v4.py` (a shipment-tracking poller).  The Python source is embedded
shallowly: strings become `List Char`, `Optional[int]` becomes `Option Int`,
and the polling loop's per-cycle body becomes an explicit step function over a
small state record, with the fallible browser calls abstracted as their
outcomes.
-/

namespace Kargo

/-- Whitespace recognized by Python `str.strip` / `str.split` (ASCII subset:
space, tab, newline, carriage return, vertical tab, form feed). -/
def isPySpace (c : Char) : Bool :=
  c == ' ' || c == '\t' || c == '\n' || c == '\r' ||
  c == Char.ofNat 11 || c == Char.ofNat 12

/-- Unicode combining marks as tested by `unicodedata.combining` — modelled as
the Combining Diacritical Marks block U+0300–U+036F, which covers every mark
produced by the decomposition table below. -/
def isCombiningMark (c : Char) : Bool :=
  decide (768 ≤ c.toNat) && decide (c.toNat ≤ 879)

/-- U+0327 COMBINING CEDILLA. -/
def markCedilla : Char := Char.ofNat 807

/-- U+0306 COMBINING BREVE. -/
def markBreve : Char := Char.ofNat 774

/-- U+0308 COMBINING DIAERESIS. -/
def markDiaeresis : Char := Char.ofNat 776

/-- U+0307 COMBINING DOT ABOVE. -/
def markDotAbove : Char := Char.ofNat 775

/-- NFKD decompositions (`unicodedata.normalize("NFKD", ...)`) for the Turkish
letters that occur in the tracker's status texts; characters outside the table
decompose to themselves. -/
def nfkdTable : List (Char × List Char) :=
  [('ç', ['c', markCedilla]), ('Ç', ['C', markCedilla]),
   ('ğ', ['g', markBreve]), ('Ğ', ['G', markBreve]),
   ('ö', ['o', markDiaeresis]), ('Ö', ['O', markDiaeresis]),
   ('ş', ['s', markCedilla]), ('Ş', ['S', markCedilla]),
   ('ü', ['u', markDiaeresis]), ('Ü', ['U', markDiaeresis]),
   ('İ', ['I', markDotAbove])]

/-- Decomposition of one character under the NFKD model. -/
def decompChar (c : Char) : List Char :=
  match nfkdTable.find? (fun p => p.1 == c) with
  | some p => p.2
  | none => [c]

/-- Uppercasing table for Python `str.upper` restricted to the characters the
pipeline can feed it (ASCII letters plus dotless ı); others map to themselves. -/
def upperTable : List (Char × Char) :=
  [('a', 'A'), ('b', 'B'), ('c', 'C'), ('d', 'D'), ('e', 'E'), ('f', 'F'),
   ('g', 'G'), ('h', 'H'), ('i', 'I'), ('j', 'J'), ('k', 'K'), ('l', 'L'),
   ('m', 'M'), ('n', 'N'), ('o', 'O'), ('p', 'P'), ('q', 'Q'), ('r', 'R'),
   ('s', 'S'), ('t', 'T'), ('u', 'U'), ('v', 'V'), ('w', 'W'), ('x', 'X'),
   ('y', 'Y'), ('z', 'Z'), ('ı', 'I')]

/-- Uppercase one character. -/
def upperChar (c : Char) : Char :=
  match upperTable.find? (fun p => p.1 == c) with
  | some p => p.2
  | none => c

/-- The explicit dotted/dotless folds of `norm_tr`:
`.replace("İ", "I").replace("ı", "I")`. -/
def dotFold (c : Char) : Char :=
  if c == 'İ' then 'I' else if c == 'ı' then 'I' else c

/-- Concatenation of a list of character lists. -/
def concatAll : List (List Char) → List Char
  | [] => []
  | l :: ls => l ++ concatAll ls

/-- Helper for `pyWords`: attach the non-space character `c` to the chunks
`r` computed for the rest `cs` — it starts a fresh chunk when the next
character is a separator, and otherwise extends the first chunk of `r`. -/
def consWord (c : Char) (cs : List Char) (r : List (List Char)) : List (List Char) :=
  match cs with
  | [] => [[c]]
  | d :: _ =>
    if isPySpace d then [c] :: r
    else
      match r with
      | [] => [[c]]
      | w :: ws => (c :: w) :: ws

/-- Python `s.split()`: the maximal whitespace-free nonempty chunks of `s`. -/
def pyWords : List Char → List (List Char)
  | [] => []
  | c :: cs =>
    if isPySpace c then pyWords cs else consWord c cs (pyWords cs)

/-- Python `" ".join(ws)`. -/
def joinSp : List (List Char) → List Char
  | [] => []
  | [w] => w
  | w :: ws => w ++ ' ' :: joinSp ws

/-- Python `s.strip()`: remove leading and trailing whitespace. -/
def pyStrip (s : List Char) : List Char :=
  ((s.dropWhile isPySpace).reverse.dropWhile isPySpace).reverse

/-- Line 56: `unicodedata.normalize("NFKD", s)`. -/
def nfkdStr (s : List Char) : List Char := concatAll (s.map decompChar)

/-- Line 57: keep only the non-combining characters. -/
def stripMarks (s : List Char) : List Char := s.filter (fun c => !isCombiningMark c)

/-- Line 58: `.replace("İ", "I").replace("ı", "I")`. -/
def foldDots (s : List Char) : List Char := s.map dotFold

/-- Line 59: `" ".join(s.split())`. -/
def collapseWs (s : List Char) : List Char := joinSp (pyWords s)

/-- Line 60: `.upper()`. -/
def pyUpper (s : List Char) : List Char := s.map upperChar

/-- `norm_tr` (yurtici_v4.py lines 54-60): strip, NFKD-decompose, drop
combining marks, fold İ/ı to I, collapse whitespace, uppercase. -/
def norm_tr (s : List Char) : List Char :=
  pyUpper (collapseWs (foldDots (stripMarks (nfkdStr (pyStrip s)))))

/-- `norm_tr` on a possibly-null argument: line 55 `(s or "")` turns `None`
into the empty string before processing. -/
def normTrOpt (s : Option (List Char)) : List Char :=
  norm_tr (s.getD [])

/-- The `Snapshot` dataclass (lines 63-70). -/
structure Snapshot where
  status : List Char
  step : Option Int
  not_found : Bool := false
deriving DecidableEq

/-- Decimal digit character, `d ↦ chr(48 + d)`. -/
def digitChar (d : Nat) : Char := Char.ofNat (48 + d)

/-- Decimal rendering of a natural number, as Python `str`. -/
def natChars (n : Nat) : List Char :=
  if n = 0 then ['0'] else (Nat.digits 10 n).reverse.map digitChar

/-- Decimal rendering of an integer, as Python `str`. -/
def intChars (i : Int) : List Char :=
  if i < 0 then '-' :: natChars (-i).toNat else natChars i.toNat

/-- The `{self.step if self.step is not None else ''}` fragment of the key. -/
def stepChars : Option Int → List Char
  | none => []
  | some i => intChars i

/-- The `NF{int(self.not_found)}` fragment of the key. -/
def nfChars (b : Bool) : List Char :=
  ['N', 'F', if b then '1' else '0']

/-- `Snapshot.key` (line 69-70):
`f"{self.status}|{self.step if self.step is not None else ''}|NF{int(self.not_found)}"`. -/
def Snapshot.key (s : Snapshot) : List Char :=
  s.status ++ '|' :: (stepChars s.step ++ '|' :: nfChars s.not_found)

/-- Does `need` occur at the start of `hay`? (helper for substring tests). -/
def leadMatch : List Char → List Char → Bool
  | [], _ => true
  | _ :: _, [] => false
  | a :: as, b :: bs => a == b && leadMatch as bs

/-- Python `need in hay` on strings: contiguous-substring membership. -/
def hasSub : List Char → List Char → Bool
  | [], need => need.isEmpty
  | c :: t, need => leadMatch need (c :: t) || hasSub t need

/-- The canonical states returned by `classify`. -/
inductive CanonState
  | NOT_FOUND
  | TESLIM
  | VARDI
  | YOLDA
  | UNKNOWN
deriving DecidableEq

/-- The delivered-phrase test of `classify` (line 102). -/
def deliveredPhrase (st : List Char) : Bool :=
  hasSub st ("TESLIM EDILDI".toList) || hasSub st ("TESLİM EDİLDİ".toList)

/-- The arrived-at-destination-hub phrase test of `classify` (line 104). -/
def arrivedPhrase (st : List Char) : Bool :=
  hasSub st ("VARIS BIRIMINDE".toList) || hasSub st ("VARIŞ BİRİMİNDE".toList)

/-- The in-transit keyword set of `classify` (line 106). -/
def transitKeys : List (List Char) :=
  ["TASIMA".toList, "TAŞIMA".toList, "TRANSFER".toList, "SEVK".toList,
   "YOLDA".toList]

/-- The in-transit phrase test of `classify` (line 106). -/
def transitPhrase (st : List Char) : Bool :=
  transitKeys.any (fun k => hasSub st k)

/-- `classify` (lines 95-118): not-found wins, then status text, then the
step fallback chain `>= 4`, `>= 3`, `>= 2`, else UNKNOWN. -/
def classify (snap : Snapshot) : CanonState :=
  if snap.not_found then CanonState.NOT_FOUND
  else
    let st := norm_tr snap.status
    if deliveredPhrase st then CanonState.TESLIM
    else if arrivedPhrase st then CanonState.VARDI
    else if transitPhrase st then CanonState.YOLDA
    else
      match snap.step with
      | some n =>
        if n ≥ 4 then CanonState.TESLIM
        else if n ≥ 3 then CanonState.VARDI
        else if n ≥ 2 then CanonState.YOLDA
        else CanonState.UNKNOWN
      | none => CanonState.UNKNOWN

/-- Rendering of the spec's classifier cascade (§4.4), for comparison with
`classify`: clause 5 reads `step >= 4` → DELIVERED, `step == 3` → ARRIVED,
`step == 2` → EN_ROUTE, first match winning, else UNKNOWN. -/
def classifySpec (snap : Snapshot) : CanonState :=
  if snap.not_found then CanonState.NOT_FOUND
  else
    let st := norm_tr snap.status
    if deliveredPhrase st then CanonState.TESLIM
    else if arrivedPhrase st then CanonState.VARDI
    else if transitPhrase st then CanonState.YOLDA
    else
      match snap.step with
      | some n =>
        if n ≥ 4 then CanonState.TESLIM
        else if n = 3 then CanonState.VARDI
        else if n = 2 then CanonState.YOLDA
        else CanonState.UNKNOWN
      | none => CanonState.UNKNOWN

/-- `looks_unreadable` (lines 121-131): not-found is readable; an empty or
all-stars status is unreadable; otherwise, a missing/zero step with neither
marker substring in the page is unreadable. -/
def looks_unreadable (snap : Snapshot) (html : List Char) : Bool :=
  let s := pyStrip snap.status
  if snap.not_found then false
  else if s.isEmpty || s.all (fun c => c == '*') then true
  else if (snap.step == none || snap.step == some 0) &&
      (!hasSub html ("four-pack".toList) && !hasSub html ("shipmentStatus".toList)) then
    true
  else false

/-- The `--target` values accepted by the CLI (line 300). -/
inductive Target
  | YOLDA
  | VARDI
  | TESLIM
deriving DecidableEq

/-- `should_stop` (lines 280-286). -/
def should_stop (current : CanonState) (target : Target) : Bool :=
  match target with
  | Target.YOLDA => false
  | Target.TESLIM => current == CanonState.TESLIM
  | Target.VARDI => current == CanonState.VARDI || current == CanonState.TESLIM

/-- Index of the first state of a run satisfying `should_stop`, or `none`. -/
def firstStopIdx (states : List CanonState) (target : Target) : Option Nat :=
  match states with
  | [] => none
  | s :: rest =>
    if should_stop s target then some 0
    else (firstStopIdx rest target).map (· + 1)

/-- The configuration the polling loop reads (from `ns`): stop flag, target,
mp3 path (empty ⇒ falsy), tts flag (speaker present iff set). -/
structure Config where
  stop : Bool
  target : Target
  mp3 : List Char
  tts : Bool

/-- The loop's mutable locals (lines 357-358): the last accepted snapshot key
and whether the initial announcement has fired. -/
structure LoopState where
  last_key : Option (List Char)
  said_initial : Bool
deriving DecidableEq

/-- Side effects the loop can emit: a log line, the mp3 alert, or speech. -/
inductive Action
  | logLine
  | playMp3
  | say (w : List Char)
deriving DecidableEq

/-- The initial-announcement word (line 412):
`"teslim" if state == "TESLIM" else ("vardı" if state == "VARDI" else "yolda")`. -/
def initWord (state : CanonState) : List Char :=
  if state == CanonState.TESLIM then "teslim".toList
  else if state == CanonState.VARDI then "vardı".toList
  else "yolda".toList

/-- One polling-loop cycle, from the point an accepted `snap` is classified
(lines 400-441).  Returns the new loop state, the emitted side effects in
program order, and whether the loop breaks this cycle. -/
def cycleStep (cfg : Config) (st : LoopState) (snap : Snapshot) :
    LoopState × List Action × Bool :=
  let state := classify snap
  if state == CanonState.NOT_FOUND then
    (st, [Action.logLine], true)
  else
    match st.last_key with
    | none =>
      let announceActs : List Action :=
        if cfg.tts && !st.said_initial then [Action.say (initWord state)] else []
      let said2 : Bool :=
        if cfg.tts && !st.said_initial then true else st.said_initial
      let st1 : LoopState := ⟨some snap.key, said2⟩
      if cfg.stop && should_stop state cfg.target then
        let mp3Acts : List Action := if cfg.mp3.isEmpty then [] else [Action.playMp3]
        let sayActs : List Action :=
          if cfg.tts && (state == CanonState.VARDI || state == CanonState.TESLIM) then
            [Action.say (if state == CanonState.TESLIM then "teslim".toList
                         else "vardı".toList)]
          else []
        (st1, Action.logLine :: announceActs ++ mp3Acts ++ sayActs ++ [Action.logLine], true)
      else
        (st1, Action.logLine :: announceActs, false)
    | some lk =>
      if snap.key == lk then
        (st, [Action.logLine], false)
      else
        let mp3Acts : List Action := if cfg.mp3.isEmpty then [] else [Action.playMp3]
        let sayActs : List Action :=
          if cfg.tts then
            if state == CanonState.VARDI then [Action.say ("vardı".toList)]
            else if state == CanonState.TESLIM then [Action.say ("teslim".toList)]
            else []
          else []
        let st2 : LoopState := ⟨some snap.key, st.said_initial⟩
        if cfg.stop && should_stop state cfg.target then
          (st2, Action.logLine :: mp3Acts ++ sayActs ++ [Action.logLine], true)
        else
          (st2, Action.logLine :: mp3Acts ++ sayActs, false)

/-- The first speech action in an emitted action list, if any. -/
def firstSay : List Action → Option (List Char)
  | [] => none
  | Action.say w :: _ => some w
  | _ :: t => firstSay t

/-- The `--mode` values (line 302). -/
inductive FetchMode
  | auto
  | requests
  | selenium
deriving DecidableEq

/-- One cycle's decision to use the rendered (Selenium) extractor
(line 371): mode is forced-selenium, or mode is auto and the lightweight
snapshot is missing or unreadable. -/
def usesSelenium (mode : FetchMode) (lightSnap : Option Snapshot) (html : List Char) : Bool :=
  mode == FetchMode.selenium ||
    (mode == FetchMode.auto &&
      (match lightSnap with
       | none => true
       | some s => looks_unreadable s html))

/-- The fetch decisions of a whole run, one per cycle.  `ns.mode` is never
reassigned inside the while-loop (lines 360-449), so every cycle re-evaluates
the escalation test on its own lightweight observation `(snap, html)`. -/
def cycleFetches (mode : FetchMode) (obs : List (Option Snapshot × List Char)) : List Bool :=
  obs.map (fun o => usesSelenium mode o.1 o.2)

/-- The claim's stickiness property over a run: once some cycle uses the
rendered extractor, every later cycle of the run does too. -/
def EscalationSticky (mode : FetchMode) (obs : List (Option Snapshot × List Char)) : Prop :=
  ∀ i j, i < j → (cycleFetches mode obs)[i]? = some true →
    j < (cycleFetches mode obs).length → (cycleFetches mode obs)[j]? = some true

/-- ASCII lowercasing of one character, for `str(e).lower()` (line 381). -/
def lowerChar (c : Char) : Char :=
  if 'A' ≤ c ∧ c ≤ 'Z' then Char.ofNat (c.toNat + 32) else c

/-- The session-invalid test of line 381: `"invalid session id" in str(e).lower()`. -/
def isSessionInvalid (msg : List Char) : Bool :=
  hasSub (msg.map lowerChar) ("invalid session id".toList)

/-- Outcome of the selenium phase of one cycle: the final result, how many
`fetch_selenium` attempts ran, and whether the driver was discarded and
recreated. -/
structure SeleniumOutcome where
  result : Except (List Char) (Snapshot × List Char)
  attempts : Nat
  driverRecreated : Bool

/-- Lines 377-389: try `fetch_selenium`; if it raises an error whose lowered
message contains "invalid session id", quit the driver, build a new one and
retry exactly once (the retry's outcome is final); any other error re-raises.
The two attempts' outcomes are the inputs `first` and `retry2`. -/
def seleniumWithRetry (first retry2 : Except (List Char) (Snapshot × List Char)) :
    SeleniumOutcome :=
  match first with
  | Except.ok r => ⟨Except.ok r, 1, false⟩
  | Except.error e =>
    if isSessionInvalid e then ⟨retry2, 2, true⟩
    else ⟨Except.error e, 1, false⟩

/-- A cycle that reaches the selenium phase, composed with the loop's
per-cycle error boundary (lines 446-449): an error escaping the phase is
caught by `except Exception`, logged, and the loop sleeps and continues with
its state unchanged.  Returns the new loop state and whether the loop breaks. -/
def cycleWithSelenium (cfg : Config) (st : LoopState)
    (first retry2 : Except (List Char) (Snapshot × List Char)) :
    LoopState × Bool :=
  match (seleniumWithRetry first retry2).result with
  | Except.error _ => (st, false)
  | Except.ok r =>
    let out := cycleStep cfg st r.1
    (out.1, out.2.2)

/-- Events that can terminate or continue one iteration of the while-loop
(lines 360-449).  `interruptInSleep` is a KeyboardInterrupt raised by
`time.sleep(interval)` at line 449, which sits outside the try/except. -/
inductive MainEvent
  | cycleBreak
  | cycleContinue
  | exceptionInCycle
  | interruptInCycle
  | interruptInSleep
deriving DecidableEq

/-- The loop-and-teardown skeleton of `main` (lines 360-455) run over a script
of per-iteration events.  `some b` means the loop terminated and `b` records
whether control reached the driver-quit block at lines 451-455; `none` means
the script ended with the loop still running.  A break or a caught
KeyboardInterrupt inside the try block falls through to the quit block; an
interrupt inside the inter-cycle sleep is uncaught, so it propagates out of
`main` past the quit block. -/
def runLoop : List MainEvent → Option Bool
  | [] => none
  | e :: rest =>
    match e with
    | MainEvent.cycleBreak => some true
    | MainEvent.interruptInCycle => some true
    | MainEvent.interruptInSleep => some false
    | MainEvent.cycleContinue => runLoop rest
    | MainEvent.exceptionInCycle => runLoop rest

/-- Characters fixed by the decomposition, combining-mark and dot-fold stages
of `norm_tr`. -/
@[reducible] def GoodChar (c : Char) : Prop :=
  decompChar c = [c] ∧ isCombiningMark c = false ∧ c ≠ 'İ' ∧ c ≠ 'ı'

/-- Characters fixed by every character-level stage of `norm_tr`,
uppercasing included. -/
@[reducible] def UChar (c : Char) : Prop :=
  GoodChar c ∧ upperChar c = c


theorem decompChar_of_not_key {c : Char} (h : ∀ p ∈ nfkdTable, p.1 ≠ c) :
    decompChar c = [c] := by
  have hf : nfkdTable.find? (fun p => p.1 == c) = none :=
    List.find?_eq_none.mpr (fun p hp => by simp [h p hp])
  unfold decompChar
  rw [hf]

theorem upperChar_of_not_key {c : Char} (h : ∀ p ∈ upperTable, p.1 ≠ c) :
    upperChar c = c := by
  have hf : upperTable.find? (fun p => p.1 == c) = none :=
    List.find?_eq_none.mpr (fun p hp => by simp [h p hp])
  unfold upperChar
  rw [hf]

theorem nfkd_out_not_key : ∀ p ∈ nfkdTable, ∀ d ∈ p.2, ∀ q ∈ nfkdTable, q.1 ≠ d := by decide

theorem upper_out_good : ∀ p ∈ upperTable,
    GoodChar p.2 ∧ (∀ q ∈ upperTable, q.1 ≠ p.2) ∧ isPySpace p.2 = false := by decide

theorem upper_key_space : ∀ p ∈ upperTable, isPySpace p.1 = false ∧ isPySpace p.2 = false := by
  decide

theorem goodChar_I : GoodChar 'I' := by decide

theorem goodChar_space : GoodChar ' ' := by decide

theorem uchar_space : UChar ' ' := by decide

theorem uchar_of_good {c : Char} (h : GoodChar c) : UChar (upperChar c) := by
  cases hfind : upperTable.find? (fun p => p.1 == c) with
  | none =>
    have he : upperChar c = c := by unfold upperChar; rw [hfind]
    rw [he]
    exact ⟨h, he⟩
  | some p =>
    have hp := List.mem_of_find?_eq_some hfind
    have hout := upper_out_good p hp
    have he : upperChar c = p.2 := by unfold upperChar; rw [hfind]
    rw [he]
    exact ⟨hout.1, upperChar_of_not_key hout.2.1⟩

theorem upperChar_space_pres : ∀ c, isPySpace (upperChar c) = isPySpace c := by
  intro c
  cases hfind : upperTable.find? (fun p => p.1 == c) with
  | none =>
    unfold upperChar
    rw [hfind]
  | some p =>
    have hp := List.mem_of_find?_eq_some hfind
    have hkey : p.1 = c := by
      have := List.find?_some hfind
      simpa using this
    unfold upperChar
    rw [hfind, ← hkey, (upper_key_space p hp).1, (upper_key_space p hp).2]

theorem upperChar_sp : upperChar ' ' = ' ' := by decide

theorem dotFold_good {c : Char} (h1 : decompChar c = [c]) (h2 : isCombiningMark c = false) :
    GoodChar (dotFold c) := by
  unfold dotFold
  by_cases hI : c == 'İ'
  · simp only [hI, if_true]
    exact goodChar_I
  · by_cases hi : c == 'ı'
    · simp only [hI, Bool.false_eq_true, if_false, hi, if_true]
      exact goodChar_I
    · simp only [hI, hi, Bool.false_eq_true, if_false]
      exact ⟨h1, h2, by simpa using hI, by simpa using hi⟩

theorem dotFold_id {c : Char} (h1 : c ≠ 'İ') (h2 : c ≠ 'ı') : dotFold c = c := by
  unfold dotFold
  simp [h1, h2]

theorem mem_concatAll {c : Char} : ∀ (ls : List (List Char)), c ∈ concatAll ls →
    ∃ l ∈ ls, c ∈ l := by
  intro ls
  induction ls with
  | nil => intro h; simp [concatAll] at h
  | cons l ls ih =>
    intro h
    rcases List.mem_append.mp h with h | h
    · exact ⟨l, by simp, h⟩
    · obtain ⟨l', hl', hc⟩ := ih h
      exact ⟨l', by simp [hl'], hc⟩

theorem concatAll_id {f : Char → List Char} : ∀ (l : List Char), (∀ c ∈ l, f c = [c]) →
    concatAll (l.map f) = l := by
  intro l
  induction l with
  | nil => intro _; rfl
  | cons c t ih =>
    intro h
    simp only [List.map_cons, concatAll, h c (by simp)]
    rw [ih (fun d hd => h d (by simp [hd]))]
    rfl

theorem map_self {f : Char → Char} : ∀ (l : List Char), (∀ c ∈ l, f c = c) → l.map f = l := by
  intro l
  induction l with
  | nil => intro _; rfl
  | cons c t ih =>
    intro h
    simp only [List.map_cons, h c (by simp)]
    rw [ih (fun d hd => h d (by simp [hd]))]

theorem nfkdStr_stable (s : List Char) : ∀ c ∈ nfkdStr s, decompChar c = [c] := by
  intro c hc
  unfold nfkdStr at hc
  obtain ⟨l, hl, hcl⟩ := mem_concatAll _ hc
  obtain ⟨d, _, rfl⟩ := List.mem_map.mp hl
  cases hfind : nfkdTable.find? (fun p => p.1 == d) with
  | none =>
    have hd : decompChar d = [d] := by unfold decompChar; rw [hfind]
    rw [hd] at hcl
    have : c = d := by simpa using hcl
    rw [this, hd]
  | some p =>
    have hd : decompChar d = p.2 := by unfold decompChar; rw [hfind]
    rw [hd] at hcl
    have hp := List.mem_of_find?_eq_some hfind
    exact decompChar_of_not_key (fun q hq => nfkd_out_not_key p hp c hcl q hq)

theorem stage_good (s : List Char) : ∀ c ∈ foldDots (stripMarks (nfkdStr s)), GoodChar c := by
  intro c hc
  unfold foldDots at hc
  obtain ⟨c', hc', rfl⟩ := List.mem_map.mp hc
  unfold stripMarks at hc'
  have hmem := List.mem_of_mem_filter hc'
  have hcomb : isCombiningMark c' = false := by
    have := List.of_mem_filter hc'
    simpa using this
  exact dotFold_good (nfkdStr_stable s c' hmem) hcomb

theorem consWord_sep {c d : Char} {cs' : List Char} {r : List (List Char)}
    (hd : isPySpace d = true) : consWord c (d :: cs') r = [c] :: r := by
  simp [consWord, hd]

theorem consWord_glue {c d : Char} {cs' : List Char} {w : List Char} {ws : List (List Char)}
    (hd : isPySpace d = false) : consWord c (d :: cs') (w :: ws) = (c :: w) :: ws := by
  simp [consWord, hd]

theorem consWord_glue_nil {c d : Char} {cs' : List Char} (hd : isPySpace d = false) :
    consWord c (d :: cs') [] = [[c]] := by
  simp [consWord, hd]

theorem pyWords_cons (c : Char) (cs : List Char) :
    pyWords (c :: cs) = if isPySpace c then pyWords cs else consWord c cs (pyWords cs) := by
  simp only [pyWords]

theorem pyWords_cons_space {c : Char} {cs : List Char} (h : isPySpace c = true) :
    pyWords (c :: cs) = pyWords cs := by
  rw [pyWords_cons, if_pos h]

theorem pyWords_cons_nonspace {c : Char} {cs : List Char} (h : isPySpace c = false) :
    pyWords (c :: cs) = consWord c cs (pyWords cs) := by
  rw [pyWords_cons, if_neg (by simp [h])]

theorem pyWords_spec : ∀ (s : List Char) (w : List Char), w ∈ pyWords s →
    w ≠ [] ∧ ∀ c ∈ w, isPySpace c = false ∧ c ∈ s := by
  intro s
  induction s with
  | nil => intro w hw; simp [pyWords] at hw
  | cons c cs ih =>
    intro w hw
    by_cases hc : isPySpace c
    · rw [pyWords_cons_space hc] at hw
      obtain ⟨h1, h2⟩ := ih w hw
      exact ⟨h1, fun x hx => ⟨(h2 x hx).1, by simp [(h2 x hx).2]⟩⟩
    · have hc' : isPySpace c = false := by simpa using hc
      rw [pyWords_cons_nonspace hc'] at hw
      have single : w = [c] → w ≠ [] ∧ ∀ x ∈ w, isPySpace x = false ∧ x ∈ c :: cs := by
        intro hwc
        subst hwc
        refine ⟨by simp, fun x hx => ?_⟩
        have : x = c := by simpa using hx
        subst this
        exact ⟨hc', by simp⟩
      cases cs with
      | nil =>
        have hwc : w = [c] := by simpa [consWord] using hw
        exact single hwc
      | cons d cs' =>
        by_cases hd : isPySpace d
        · rw [consWord_sep hd] at hw
          rcases List.mem_cons.mp hw with hwc | hw2
          · exact single hwc
          · obtain ⟨h1, h2⟩ := ih w hw2
            exact ⟨h1, fun x hx => ⟨(h2 x hx).1, by simp [(h2 x hx).2]⟩⟩
        · have hd' : isPySpace d = false := by simpa using hd
          cases hrec : pyWords (d :: cs') with
          | nil =>
            rw [hrec, consWord_glue_nil hd'] at hw
            have hwc : w = [c] := by simpa using hw
            exact single hwc
          | cons w0 ws0 =>
            rw [hrec, consWord_glue hd'] at hw
            rcases List.mem_cons.mp hw with hwc | hw2
            · subst hwc
              refine ⟨by simp, fun x hx => ?_⟩
              rcases List.mem_cons.mp hx with hxc | hx0
              · subst hxc
                exact ⟨hc', by simp⟩
              · have := (ih w0 (by rw [hrec]; simp)).2 x hx0
                exact ⟨this.1, by simp [this.2]⟩
            · have := ih w (by rw [hrec]; simp [hw2])
              exact ⟨this.1, fun x hx => ⟨(this.2 x hx).1, by simp [(this.2 x hx).2]⟩⟩

theorem pyWords_append_spaced : ∀ (w : List Char), w ≠ [] →
    (∀ c ∈ w, isPySpace c = false) →
    ∀ t, pyWords (w ++ ' ' :: t) = w :: pyWords t := by
  intro w
  induction w with
  | nil => intro h; exact absurd rfl h
  | cons c w' ih =>
    intro _ hch t
    have hc : isPySpace c = false := hch c (by simp)
    cases w' with
    | nil =>
      have hsp : isPySpace ' ' = true := by decide
      rw [List.cons_append, List.nil_append, pyWords_cons_nonspace hc, consWord_sep hsp,
        pyWords_cons_space hsp]
    | cons c2 w'' =>
      have hc2 : isPySpace c2 = false := hch c2 (by simp)
      have hrec : pyWords (c2 :: (w'' ++ ' ' :: t)) = (c2 :: w'') :: pyWords t := by
        have := ih (by simp) (fun x hx => hch x (by simp [hx])) t
        simpa using this
      rw [List.cons_append]
      rw [show (c2 :: w'') ++ ' ' :: t = c2 :: (w'' ++ ' ' :: t) from rfl]
      rw [pyWords_cons_nonspace hc, hrec, consWord_glue hc2]

theorem pyWords_one_word : ∀ (w : List Char), w ≠ [] →
    (∀ c ∈ w, isPySpace c = false) → pyWords w = [w] := by
  intro w
  induction w with
  | nil => intro h; exact absurd rfl h
  | cons c w' ih =>
    intro _ hch
    have hc : isPySpace c = false := hch c (by simp)
    cases w' with
    | nil => rw [pyWords_cons_nonspace hc]; rfl
    | cons c2 w'' =>
      have hc2 : isPySpace c2 = false := hch c2 (by simp)
      have hrec := ih (by simp) (fun x hx => hch x (by simp [hx]))
      rw [pyWords_cons_nonspace hc, hrec, consWord_glue hc2]

theorem joinSp_cons_cons (w w2 : List Char) (ws : List (List Char)) :
    joinSp (w :: w2 :: ws) = w ++ ' ' :: joinSp (w2 :: ws) := rfl

theorem pyWords_joinSp : ∀ (ws : List (List Char)),
    (∀ w ∈ ws, w ≠ [] ∧ ∀ c ∈ w, isPySpace c = false) →
    pyWords (joinSp ws) = ws := by
  intro ws
  induction ws with
  | nil => intro _; rfl
  | cons w ws' ih =>
    intro h
    cases ws' with
    | nil =>
      have hw := h w (by simp)
      exact pyWords_one_word w hw.1 hw.2
    | cons w2 ws'' =>
      rw [joinSp_cons_cons]
      have hw := h w (by simp)
      rw [pyWords_append_spaced w hw.1 hw.2]
      rw [ih (fun v hv => h v (by simp [hv]))]

theorem joinSp_map {f : Char → Char} (hf : f ' ' = ' ') :
    ∀ (ws : List (List Char)), (joinSp ws).map f = joinSp (ws.map (List.map f)) := by
  intro ws
  induction ws with
  | nil => rfl
  | cons w ws' ih =>
    cases ws' with
    | nil => rfl
    | cons w2 ws'' =>
      rw [joinSp_cons_cons, List.map_append, List.map_cons, hf, ih]
      simp [joinSp_cons_cons]

theorem mem_joinSp : ∀ (ws : List (List Char)) (c : Char), c ∈ joinSp ws →
    c = ' ' ∨ ∃ w ∈ ws, c ∈ w := by
  intro ws
  induction ws with
  | nil => intro c h; simp [joinSp] at h
  | cons w ws' ih =>
    intro c h
    cases ws' with
    | nil => exact Or.inr ⟨w, by simp, h⟩
    | cons w2 ws'' =>
      rw [joinSp_cons_cons] at h
      rcases List.mem_append.mp h with h | h
      · exact Or.inr ⟨w, by simp, h⟩
      · rcases List.mem_cons.mp h with h | h
        · exact Or.inl h
        · rcases ih c h with h | ⟨v, hv, hc⟩
          · exact Or.inl h
          · exact Or.inr ⟨v, by simp [hv], hc⟩

theorem joinSp_append_single : ∀ (ws : List (List Char)) (x : List Char), ws ≠ [] →
    joinSp (ws ++ [x]) = joinSp ws ++ ' ' :: x := by
  intro ws
  induction ws with
  | nil => intro x h; exact absurd rfl h
  | cons w ws' ih =>
    intro x _
    cases ws' with
    | nil => rfl
    | cons w2 ws'' =>
      have hstep := ih x (by simp)
      simp only [List.cons_append] at hstep ⊢
      rw [joinSp_cons_cons, hstep, joinSp_cons_cons]
      simp [List.append_assoc]

theorem joinSp_reverse : ∀ (ws : List (List Char)),
    (joinSp ws).reverse = joinSp ((ws.map List.reverse).reverse) := by
  intro ws
  induction ws with
  | nil => rfl
  | cons w ws' ih =>
    cases ws' with
    | nil => rfl
    | cons w2 ws'' =>
      rw [joinSp_cons_cons, List.reverse_append, List.reverse_cons, ih]
      have hM : ((w2 :: ws'').map List.reverse).reverse ≠ [] := by simp
      conv_rhs => rw [List.map_cons, List.reverse_cons]
      rw [joinSp_append_single _ _ hM]
      simp [List.append_assoc]

theorem dropWhile_joinSp : ∀ (ws : List (List Char)),
    (∀ w ∈ ws, w ≠ [] ∧ ∀ c ∈ w, isPySpace c = false) →
    (joinSp ws).dropWhile isPySpace = joinSp ws := by
  intro ws h
  cases ws with
  | nil => rfl
  | cons w rest =>
    have hw := h w (by simp)
    obtain ⟨c, w', rfl⟩ := List.exists_cons_of_ne_nil hw.1
    have hc : isPySpace c = false := hw.2 c (by simp)
    have hhead : ∃ t, joinSp ((c :: w') :: rest) = c :: t := by
      cases rest with
      | nil => exact ⟨w', rfl⟩
      | cons r rs => exact ⟨w' ++ ' ' :: joinSp (r :: rs), rfl⟩
    obtain ⟨t, ht⟩ := hhead
    rw [ht, List.dropWhile_cons, hc]
    simp

theorem pyStrip_joinSp : ∀ (ws : List (List Char)),
    (∀ w ∈ ws, w ≠ [] ∧ ∀ c ∈ w, isPySpace c = false) →
    pyStrip (joinSp ws) = joinSp ws := by
  intro ws h
  have hrev : ∀ w ∈ (ws.map List.reverse).reverse, w ≠ [] ∧
      ∀ c ∈ w, isPySpace c = false := by
    intro w hw
    rw [List.mem_reverse] at hw
    obtain ⟨v, hv, rfl⟩ := List.mem_map.mp hw
    have := h v hv
    exact ⟨by simpa using this.1, fun c hc => this.2 c (List.mem_reverse.mp hc)⟩
  unfold pyStrip
  rw [dropWhile_joinSp ws h, joinSp_reverse, dropWhile_joinSp _ hrev, ← joinSp_reverse,
    List.reverse_reverse]

theorem norm_tr_as_joinSp (s : List Char) :
    norm_tr s = joinSp ((pyWords (foldDots (stripMarks (nfkdStr (pyStrip s))))).map
      (List.map upperChar)) := by
  unfold norm_tr pyUpper collapseWs
  exact joinSp_map upperChar_sp _

theorem norm_tr_words (s : List Char) :
    ∀ w ∈ (pyWords (foldDots (stripMarks (nfkdStr (pyStrip s))))).map (List.map upperChar),
      w ≠ [] ∧ ∀ c ∈ w, isPySpace c = false := by
  intro w hw
  obtain ⟨v, hv, rfl⟩ := List.mem_map.mp hw
  have hspec := pyWords_spec _ v hv
  refine ⟨by simpa using hspec.1, fun c hc => ?_⟩
  obtain ⟨c0, hc0, rfl⟩ := List.mem_map.mp hc
  rw [upperChar_space_pres c0]
  exact (hspec.2 c0 hc0).1

theorem norm_tr_chars (s : List Char) : ∀ c ∈ norm_tr s, UChar c := by
  intro c hc
  rw [norm_tr_as_joinSp] at hc
  rcases mem_joinSp _ c hc with h | ⟨w, hw, hcw⟩
  · rw [h]
    exact uchar_space
  · obtain ⟨v, hv, rfl⟩ := List.mem_map.mp hw
    obtain ⟨c0, hc0, rfl⟩ := List.mem_map.mp hcw
    have hmem := (pyWords_spec _ v hv).2 c0 hc0
    exact uchar_of_good (stage_good _ c0 hmem.2)

theorem norm_tr_shape (s : List Char) : collapseWs (norm_tr s) = norm_tr s := by
  rw [norm_tr_as_joinSp]
  unfold collapseWs
  rw [pyWords_joinSp _ (norm_tr_words s)]

theorem norm_tr_strip (s : List Char) : pyStrip (norm_tr s) = norm_tr s := by
  rw [norm_tr_as_joinSp]
  exact pyStrip_joinSp _ (norm_tr_words s)

theorem norm_tr_fixed {s : List Char} (hchars : ∀ c ∈ s, UChar c)
    (hshape : collapseWs s = s) (hstrip : pyStrip s = s) : norm_tr s = s := by
  have hnfkd : nfkdStr s = s := by
    unfold nfkdStr
    exact concatAll_id s (fun c hc => (hchars c hc).1.1)
  have hmarks : stripMarks s = s := by
    unfold stripMarks
    exact List.filter_eq_self.mpr (fun c hc => by simp [(hchars c hc).1.2.1])
  have hdots : foldDots s = s := by
    unfold foldDots
    exact map_self s (fun c hc => dotFold_id (hchars c hc).1.2.2.1 (hchars c hc).1.2.2.2)
  have hup : pyUpper s = s := by
    unfold pyUpper
    exact map_self s (fun c hc => (hchars c hc).2)
  unfold norm_tr
  rw [hstrip, hnfkd, hmarks, hdots]
  show pyUpper (collapseWs s) = s
  rw [hshape, hup]

/-- C9: the text normalizer is idempotent, and empty or null input yields
the empty string (`(s or "")` at line 55 turns `None` into `""`). -/
theorem c9_norm_tr_idempotent :
    (∀ x : List Char, norm_tr (norm_tr x) = norm_tr x) ∧
    norm_tr [] = [] ∧ normTrOpt none = [] :=
  ⟨fun x => norm_tr_fixed (norm_tr_chars x) (norm_tr_shape x) (norm_tr_strip x),
    rfl, rfl⟩


theorem digitChar_facts : ∀ d < 10, digitChar d ≠ '-' ∧ digitChar d ≠ '|' := by decide

theorem digitChar_inj : ∀ d < 10, ∀ e < 10, digitChar d = digitChar e → d = e := by decide

theorem mapDigit_inj : ∀ (l1 l2 : List Nat), (∀ d ∈ l1, d < 10) → (∀ d ∈ l2, d < 10) →
    l1.map digitChar = l2.map digitChar → l1 = l2 := by
  intro l1
  induction l1 with
  | nil =>
    intro l2 _ _ h
    cases l2 with
    | nil => rfl
    | cons b t2 => simp at h
  | cons a t ih =>
    intro l2 h1 h2 h
    cases l2 with
    | nil => simp at h
    | cons b t2 =>
      simp only [List.map_cons, List.cons.injEq] at h
      have hab := digitChar_inj a (h1 a (by simp)) b (h2 b (by simp)) h.1
      have ht := ih t2 (fun d hd => h1 d (by simp [hd])) (fun d hd => h2 d (by simp [hd])) h.2
      rw [hab, ht]

theorem natChars_ne_nil (n : Nat) : natChars n ≠ [] := by
  unfold natChars
  by_cases h : n = 0
  · simp [h]
  · simp only [h, if_false]
    have hne : Nat.digits 10 n ≠ [] := Nat.digits_ne_nil_iff_ne_zero.mpr h
    intro hc
    simp at hc
    exact hne hc

theorem natChars_mem (n : Nat) : ∀ c ∈ natChars n, ∃ d, d < 10 ∧ c = digitChar d := by
  unfold natChars
  by_cases h : n = 0
  · simp only [h, if_true]
    intro c hc
    simp at hc
    exact ⟨0, by omega, by rw [hc]; rfl⟩
  · simp only [h, if_false]
    intro c hc
    obtain ⟨d, hd, rfl⟩ := List.mem_map.mp hc
    exact ⟨d, Nat.digits_lt_base (by norm_num) (List.mem_reverse.mp hd), rfl⟩

theorem natChars_inj : ∀ m n : Nat, natChars m = natChars n → m = n := by
  have key : ∀ n : Nat, n ≠ 0 → natChars n = ['0'] → False := by
    intro n hn h
    unfold natChars at h
    simp only [hn, if_false] at h
    rcases hrev : (Nat.digits 10 n).reverse with _ | ⟨d, l'⟩
    · rw [hrev] at h; simp at h
    · rw [hrev] at h
      simp only [List.map_cons, List.cons.injEq] at h
      have hl' : l' = [] := by
        rcases l' with _ | _ <;> simp_all
      have hd10 : d < 10 :=
        Nat.digits_lt_base (by norm_num) (List.mem_reverse.mp (by rw [hrev]; simp))
      have hd0 : d = 0 := digitChar_inj d hd10 0 (by omega) (by rw [h.1]; rfl)
      have hdig : Nat.digits 10 n = [0] := by
        have := congrArg List.reverse hrev
        simpa [hl', hd0] using this
      have : n = 0 := by
        have h2 := Nat.ofDigits_digits 10 n
        rw [hdig] at h2
        simpa using h2.symm
      exact hn this
  intro m n h
  by_cases hm : m = 0 <;> by_cases hn : n = 0
  · omega
  · exfalso
    apply key n hn
    rw [← h]
    simp [natChars, hm]
  · exfalso
    apply key m hm
    rw [h]
    simp [natChars, hn]
  · unfold natChars at h
    simp only [hm, hn, if_false] at h
    have hrev := mapDigit_inj _ _
      (fun d hd => Nat.digits_lt_base (by norm_num) (List.mem_reverse.mp hd))
      (fun d hd => Nat.digits_lt_base (by norm_num) (List.mem_reverse.mp hd)) h
    have hdig : Nat.digits 10 m = Nat.digits 10 n := by
      have := congrArg List.reverse hrev
      simpa using this
    have h2 := Nat.ofDigits_digits 10 m
    rw [hdig, Nat.ofDigits_digits] at h2
    exact h2.symm

theorem intChars_ne_nil (i : Int) : intChars i ≠ [] := by
  unfold intChars
  by_cases h : i < 0
  · simp [h]
  · simp only [h, if_false]
    exact natChars_ne_nil _

theorem intChars_mem (i : Int) : ∀ c ∈ intChars i, c = '-' ∨ ∃ d, d < 10 ∧ c = digitChar d := by
  unfold intChars
  by_cases h : i < 0 <;> simp only [h, if_true, if_false]
  · intro c hc
    rcases List.mem_cons.mp hc with hc | hc
    · exact Or.inl hc
    · exact Or.inr (natChars_mem _ c hc)
  · intro c hc
    exact Or.inr (natChars_mem _ c hc)

theorem intChars_inj : ∀ i j : Int, intChars i = intChars j → i = j := by
  have headDigit : ∀ (n : Nat) (t : List Char), natChars n = '-' :: t → False := by
    intro n t h
    have : '-' ∈ natChars n := by rw [h]; simp
    obtain ⟨d, hd, he⟩ := natChars_mem n '-' this
    exact (digitChar_facts d hd).1 he.symm
  intro i j h
  unfold intChars at h
  by_cases hi : i < 0 <;> by_cases hj : j < 0
  · simp only [hi, hj, if_true, List.cons.injEq, true_and] at h
    have := natChars_inj _ _ h
    omega
  · simp only [hi, hj, if_true, if_false] at h
    exact absurd h.symm (fun hh => headDigit _ _ hh)
  · simp only [hi, hj, if_true, if_false] at h
    exact absurd h (fun hh => headDigit _ _ hh)
  · simp only [hi, hj, if_false] at h
    have := natChars_inj _ _ h
    omega

theorem stepChars_sepFree (o : Option Int) : ∀ c ∈ stepChars o, c ≠ '|' := by
  cases o with
  | none => intro c hc; simp [stepChars] at hc
  | some i =>
    intro c hc
    rcases intChars_mem i c hc with h | ⟨d, hd, he⟩
    · rw [h]; decide
    · rw [he]; exact (digitChar_facts d hd).2

theorem stepChars_inj : ∀ o1 o2 : Option Int, stepChars o1 = stepChars o2 → o1 = o2 := by
  intro o1 o2 h
  cases o1 with
  | none =>
    cases o2 with
    | none => rfl
    | some j => exact absurd h.symm (intChars_ne_nil j)
  | some i =>
    cases o2 with
    | none => exact absurd h (intChars_ne_nil i)
    | some j => rw [intChars_inj i j h]

theorem nfChars_sepFree (b : Bool) : ∀ c ∈ nfChars b, c ≠ '|' := by
  cases b <;> decide

theorem nfChars_inj : ∀ b1 b2 : Bool, nfChars b1 = nfChars b2 → b1 = b2 := by decide

theorem seg_split : ∀ (a b u v : List Char), (∀ c ∈ a, c ≠ '|') → (∀ c ∈ b, c ≠ '|') →
    a ++ '|' :: u = b ++ '|' :: v → a = b ∧ u = v := by
  intro a
  induction a with
  | nil =>
    intro b u v _ hb h
    cases b with
    | nil => simpa using h
    | cons x bt =>
      simp only [List.nil_append, List.cons_append, List.cons.injEq] at h
      exact absurd h.1.symm (hb x (by simp))
  | cons x t ih =>
    intro b u v ha hb h
    cases b with
    | nil =>
      simp only [List.nil_append, List.cons_append, List.cons.injEq] at h
      exact absurd h.1 (ha x (by simp))
    | cons y bt =>
      simp only [List.cons_append, List.cons.injEq] at h
      obtain ⟨h1, h2⟩ := ih bt u v (fun c hc => ha c (by simp [hc]))
        (fun c hc => hb c (by simp [hc])) h.2
      exact ⟨by rw [h.1, h1], h2⟩

theorem key_reverse_eq (s : Snapshot) :
    s.key.reverse = (nfChars s.not_found).reverse ++ '|' ::
      ((stepChars s.step).reverse ++ '|' :: s.status.reverse) := by
  unfold Snapshot.key
  simp [List.reverse_append, List.append_assoc]

/-- Claim C5: two snapshots have the same change-detection key iff their raw
`(status, step, notFound)` tuples are equal — the key is built from the raw
status text and its encoding is collision-free. -/
theorem c5_key_iff :
    ∀ s1 s2 : Snapshot, s1.key = s2.key ↔
      (s1.status = s2.status ∧ s1.step = s2.step ∧ s1.not_found = s2.not_found) := by
  intro s1 s2
  constructor
  · intro h
    have hr : s1.key.reverse = s2.key.reverse := by rw [h]
    rw [key_reverse_eq, key_reverse_eq] at hr
    obtain ⟨h1, h2⟩ := seg_split _ _ _ _
      (fun c hc => nfChars_sepFree s1.not_found c (List.mem_reverse.mp hc))
      (fun c hc => nfChars_sepFree s2.not_found c (List.mem_reverse.mp hc)) hr
    obtain ⟨h3, h4⟩ := seg_split _ _ _ _
      (fun c hc => stepChars_sepFree s1.step c (List.mem_reverse.mp hc))
      (fun c hc => stepChars_sepFree s2.step c (List.mem_reverse.mp hc)) h2
    refine ⟨List.reverse_inj.mp h4, stepChars_inj _ _ (List.reverse_inj.mp h3),
      nfChars_inj _ _ (List.reverse_inj.mp h1)⟩
  · rintro ⟨ha, hb, hc⟩
    unfold Snapshot.key
    rw [ha, hb, hc]

/-- Claim C1: `classify` applies its rules with first match winning — not-found
first, then the delivered / arrived / in-transit phrase tests on the normalized
status, then the descending step cascade (≥4 delivered, =3 arrived, =2 en
route), else UNKNOWN; this is stated as agreement with the spec's cascade
`classifySpec` together with the four concrete examples of the claim. -/
theorem c1_classify_precedence :
    (∀ snap, classify snap = classifySpec snap) ∧
    classify ⟨"Teslim Edildi".toList, some 2, false⟩ = CanonState.TESLIM ∧
    classify ⟨[], some 3, false⟩ = CanonState.VARDI ∧
    classify ⟨[], none, false⟩ = CanonState.UNKNOWN ∧
    (∀ status step, classify ⟨status, step, true⟩ = CanonState.NOT_FOUND) := by
  refine ⟨?_, by decide, by decide, by decide, fun _ _ => rfl⟩
  intro snap
  unfold classify classifySpec
  split_ifs <;> try rfl
  cases snap.step with
  | none => rfl
  | some n =>
    by_cases h4 : n ≥ 4
    · simp [h4]
    · by_cases h3 : n ≥ 3
      · have he : n = 3 := by omega
        simp [h4, h3, he]
      · by_cases h2 : n ≥ 2
        · have he : n = 2 := by omega
          have e3 : ¬ (n = 3) := by omega
          simp [h4, h3, h2, he, e3]
        · have e3 : ¬ (n = 3) := by omega
          have e2 : ¬ (n = 2) := by omega
          simp [h4, h3, h2, e3, e2]

/-- Claim C2 counterexample: for the Snapshot with status `"***"`, step `None`,
notFound false, `looks_unreadable` returns `true` even when the markup contains
the step-container identifier `four-pack` — the claim asserts it returns
`false` there, but the all-stars status check at line 125 fires first. -/
theorem c2_counterexample :
    looks_unreadable ⟨"***".toList, none, false⟩
      ("<div id=four-pack data-step=2></div>".toList) = true := by decide

/-- Claim C2 amended: for the Snapshot with status `"***"`, step `None`,
notFound false, `looks_unreadable` returns `true` for every markup sample —
an all-stars status is unreadable regardless of the marker substrings. -/
theorem c2_amended :
    ∀ html, looks_unreadable ⟨"***".toList, none, false⟩ html = true := fun _ => rfl

/-- Claim C3: whenever the accepted snapshot classifies as NOT_FOUND, the
cycle emits only the log line (no audio, no speech), leaves the loop state —
including the baseline snapshot-key — unchanged, and breaks the loop, for
every configuration (stop flag and target included) and every prior state,
the very first cycle in particular. -/
theorem c3_not_found_halts :
    ∀ (cfg : Config) (st : LoopState) (snap : Snapshot),
      classify snap = CanonState.NOT_FOUND →
      cycleStep cfg st snap = (st, [Action.logLine], true) := by
  intro cfg st snap h
  unfold cycleStep
  simp [h]

/-- Witness for C3 at a concrete not-found snapshot on the first cycle. -/
theorem c3_witness :
    classify ⟨"x".toList, some 2, true⟩ = CanonState.NOT_FOUND ∧
    cycleStep ⟨true, Target.VARDI, "ok.mp3".toList, true⟩ ⟨none, false⟩
        ⟨"x".toList, some 2, true⟩ = (⟨none, false⟩, [Action.logLine], true) :=
  ⟨rfl, c3_not_found_halts _ _ _ rfl⟩

/-- Claim C4: `should_stop` is never satisfied for target YOLDA (EN_ROUTE),
holds for target TESLIM (DELIVERED) iff the current state is TESLIM, and for
target VARDI (ARRIVED) iff the current state is VARDI or TESLIM; over the run
UNKNOWN, YOLDA, VARDI the first stopping index is 2 (the third cycle) for
target VARDI and there is none for target TESLIM. -/
theorem c4_stop_condition :
    (∀ current, should_stop current Target.YOLDA = false) ∧
    (∀ current, should_stop current Target.TESLIM = true ↔ current = CanonState.TESLIM) ∧
    (∀ current, should_stop current Target.VARDI = true ↔
      (current = CanonState.VARDI ∨ current = CanonState.TESLIM)) ∧
    firstStopIdx [CanonState.UNKNOWN, CanonState.YOLDA, CanonState.VARDI] Target.VARDI = some 2 ∧
    firstStopIdx [CanonState.UNKNOWN, CanonState.YOLDA, CanonState.VARDI] Target.TESLIM = none := by
  refine ⟨fun c => rfl, fun c => ?_, fun c => ?_, by decide, by decide⟩ <;>
    cases c <;> simp [should_stop]

/-- Claim C6 counterexample: a two-cycle auto-mode run whose first lightweight
snapshot is unreadable (escalating to rendered fetch) and whose second is
readable uses the lightweight path again on the second cycle — escalation is
not sticky, refuting the claim. -/
theorem c6_counterexample :
    ¬ EscalationSticky FetchMode.auto
      [(some ⟨"***".toList, none, false⟩, []),
       (some ⟨"Teslim Edildi".toList, some 4, false⟩, "four-pack".toList)] := by
  intro h
  have h2 := h 0 1 (by omega) (by decide) (by decide)
  revert h2
  decide

/-- Claim C6 amended: in auto mode each cycle's fetch decision is a function
of that cycle's own lightweight observation only — a cycle uses rendered
extraction iff its own lightweight snapshot is missing or unreadable; the
escalated mode does not persist to later cycles (only the browser session
object does). -/
theorem c6_amended :
    ∀ (obs : List (Option Snapshot × List Char)) (i : Nat),
      (cycleFetches FetchMode.auto obs)[i]? =
        (obs[i]?).map (fun o => usesSelenium FetchMode.auto o.1 o.2) := by
  intro obs i
  unfold cycleFetches
  exact List.getElem?_map ..

/-- Claim C7: on an invalid/expired-session error the driver is discarded and
recreated and the extraction retried exactly once, the retry's outcome being
final; a non-session error is not retried; and any error outcome of the
phase — a failed retry included — is handled as a transient per-cycle error:
the loop state does not advance and the loop continues. -/
theorem c7_session_retry :
    (∀ e retry2, isSessionInvalid e = true →
      seleniumWithRetry (Except.error e) retry2 = ⟨retry2, 2, true⟩) ∧
    (∀ e retry2, isSessionInvalid e = false →
      seleniumWithRetry (Except.error e) retry2 = ⟨Except.error e, 1, false⟩) ∧
    (∀ cfg st e e2, cycleWithSelenium cfg st (Except.error e) (Except.error e2) = (st, false)) := by
  refine ⟨fun e r h => by simp [seleniumWithRetry, h],
          fun e r h => by simp [seleniumWithRetry, h], ?_⟩
  intro cfg st e e2
  unfold cycleWithSelenium seleniumWithRetry
  by_cases h : isSessionInvalid e <;> simp [h]

/-- Witness for C7 at a concrete invalid-session message and at a concrete
pair of failing attempts. -/
theorem c7_witness :
    isSessionInvalid ("Message: INVALID Session id: session deleted".toList) = true ∧
    seleniumWithRetry
        (Except.error ("Message: INVALID Session id: session deleted".toList))
        (Except.ok (⟨[], some 2, false⟩, [])) =
      ⟨Except.ok (⟨[], some 2, false⟩, []), 2, true⟩ ∧
    cycleWithSelenium ⟨false, Target.VARDI, [], false⟩ ⟨none, false⟩
        (Except.error ("boom".toList)) (Except.error ("boom2".toList)) =
      (⟨none, false⟩, false) :=
  ⟨by decide, c7_session_retry.1 _ _ (by decide), c7_session_retry.2.2 _ _ _ _⟩

/-- Claim C8 counterexample: a KeyboardInterrupt raised in the inter-cycle
sleep (line 449, outside the try/except) terminates the loop without reaching
the driver-quit block at lines 451-455 — refuting the claim that teardown runs
on every exit, the sleep case included. -/
theorem c8_counterexample :
    runLoop [MainEvent.interruptInSleep] = some false := rfl

/-- Claim C8 amended: the driver-quit block runs on every loop exit except an
interrupt during the inter-cycle sleep — teardown is skipped only when an
interrupt-in-sleep event occurs, and an interrupt during a cycle (caught by
the except clause) still reaches teardown. -/
theorem c8_amended :
    (∀ evs, runLoop evs = some false → MainEvent.interruptInSleep ∈ evs) ∧
    (∀ pre, MainEvent.interruptInSleep ∉ pre →
      runLoop (pre ++ [MainEvent.interruptInCycle]) = some true) := by
  constructor
  · intro evs
    induction evs with
    | nil => intro h; simp [runLoop] at h
    | cons e rest ih =>
      intro h
      cases e with
      | cycleBreak => simp [runLoop] at h
      | interruptInCycle => simp [runLoop] at h
      | interruptInSleep => exact List.mem_cons_self _ _
      | cycleContinue => exact List.mem_cons_of_mem _ (ih h)
      | exceptionInCycle => exact List.mem_cons_of_mem _ (ih h)
  · intro pre
    induction pre with
    | nil => intro _; rfl
    | cons e rest ih =>
      intro h
      cases e with
      | cycleBreak => rfl
      | interruptInCycle => rfl
      | interruptInSleep => exact absurd (List.mem_cons_self _ _) h
      | cycleContinue => exact ih (fun hm => h (List.mem_cons_of_mem _ hm))
      | exceptionInCycle => exact ih (fun hm => h (List.mem_cons_of_mem _ hm))

/-- Witness for C8 amended at concrete event scripts. -/
theorem c8_witness :
    MainEvent.interruptInSleep ∈ [MainEvent.interruptInSleep] ∧
    runLoop ([MainEvent.cycleContinue, MainEvent.exceptionInCycle] ++
      [MainEvent.interruptInCycle]) = some true :=
  ⟨c8_amended.1 _ rfl, c8_amended.2 _ (by simp)⟩

/-- Claim C10: on the first cycle (no prior key, announcement not yet fired)
with speech enabled and a non-NOT_FOUND state, the first spoken word is
`initWord` of the canonical state: "teslim" for TESLIM, "vardı" for VARDI,
and "yolda" for every other state, UNKNOWN included. -/
theorem c10_initial_announcement :
    ∀ (cfg : Config) (st : LoopState) (snap : Snapshot),
      cfg.tts = true → st.last_key = none → st.said_initial = false →
      classify snap ≠ CanonState.NOT_FOUND →
      firstSay (cycleStep cfg st snap).2.1 = some (initWord (classify snap)) ∧
      initWord CanonState.TESLIM = "teslim".toList ∧
      initWord CanonState.VARDI = "vardı".toList ∧
      initWord CanonState.YOLDA = "yolda".toList ∧
      initWord CanonState.UNKNOWN = "yolda".toList := by
  intro cfg st snap htts hkey hsaid hnf
  refine ⟨?_, rfl, rfl, rfl, rfl⟩
  have hbeq : (classify snap == CanonState.NOT_FOUND) = false := by
    simpa using hnf
  unfold cycleStep
  simp only [hbeq, Bool.false_eq_true, if_false, hkey, htts, hsaid, Bool.not_false,
    Bool.and_self, if_true]
  by_cases hstop : (cfg.stop && should_stop (classify snap) cfg.target) = true <;>
    simp [hstop, firstSay]

/-- Witness for C10 at a concrete first cycle with an UNKNOWN state. -/
theorem c10_witness :
    (⟨false, Target.VARDI, [], true⟩ : Config).tts = true ∧
    (⟨none, false⟩ : LoopState).last_key = none ∧
    (⟨none, false⟩ : LoopState).said_initial = false ∧
    classify ⟨[], none, false⟩ ≠ CanonState.NOT_FOUND ∧
    firstSay (cycleStep ⟨false, Target.VARDI, [], true⟩ ⟨none, false⟩
        ⟨[], none, false⟩).2.1 = some (initWord (classify ⟨[], none, false⟩)) :=
  ⟨rfl, rfl, rfl, by decide,
    (c10_initial_announcement _ _ _ rfl rfl rfl (by decide)).1⟩

end Kargo
